import Mathlib

/-!
Verification of the data-preprocessing workshop repository.

The repository's own code consists of the `return_mileage` helper, two
encoding lambdas, and notebook cells that call pandas / scikit-learn
library functions.  The repository code is embedded directly from the
source; the library operations the notebooks invoke (train/test
splitting with stratification, standard scaling, one-hot encoding,
correlation matrices, label encoding, column assignment) are absent
from the source tree and are modelled from the specification's
description of them.
-/

namespace Workshop

/-! ## Python regular-expression matching for the pattern \d+\.\d+

`return_mileage` calls `re.findall(re.compile(r"\d+\.\d+"), length)`.
For this particular pattern, a match starting at a position exists
exactly when a nonempty maximal digit run is followed by a dot and a
further nonempty digit run; since `\d+` is greedy and `.` (the literal
dot) is not a digit, backtracking never changes this.  `findall`
returns the leftmost non-overlapping matches, scanning left to right
and resuming after each (nonempty) match. -/

/-- Attempt to match the regex `\d+\.\d+` at the head of the character
list.  On success, return the matched characters together with the
remainder of the input after the match. -/
def matchMileage (s : List Char) : Option (List Char × List Char) :=
  let d1 := s.takeWhile Char.isDigit
  let r1 := s.dropWhile Char.isDigit
  if d1.isEmpty then none
  else
    match r1 with
    | '.' :: r2 =>
      let d2 := r2.takeWhile Char.isDigit
      if d2.isEmpty then none
      else some (d1 ++ '.' :: d2, r2.dropWhile Char.isDigit)
    | _ => none

/-- Fuelled scan underlying `findallMileage`: try a match at each
position, emit it and resume after its end, otherwise advance one
character.  Each recursive call consumes at least one input character,
so fuel equal to the input length is always sufficient. -/
def findallAux : Nat → List Char → List (List Char)
  | 0, _ => []
  | _ + 1, [] => []
  | fuel + 1, c :: rest =>
    match matchMileage (c :: rest) with
    | some (m, r) => m :: findallAux fuel r
    | none => findallAux fuel rest

/-- Python's `re.findall` for the pattern `\d+\.\d+`: the list of
non-overlapping leftmost matches, in order. -/
def findallMileage (s : List Char) : List (List Char) :=
  findallAux s.length s

/-- Numeric value of a digit run, most significant digit first. -/
def digitsVal (l : List Char) : ℕ :=
  l.foldl (fun a c => 10 * a + (c.toNat - 48)) 0

/-- Python's `float()` applied to a decimal literal of the form
`digits.digits`, modelled exactly as a rational number (the workshop
treats the parsed mileage as the decimal value it denotes). -/
def parseFloat (l : List Char) : ℚ :=
  let ip := l.takeWhile (fun c => c ≠ '.')
  let fp := (l.dropWhile (fun c => c ≠ '.')).tail
  (digitsVal ip : ℚ) + (digitsVal fp : ℚ) / (10 : ℚ) ^ fp.length

/-- A Python value passed to `return_mileage`: the `Length` column
holds free-text strings, and missing entries are the float NaN (the
notebook notes the `isinstance` check guards against exactly these). -/
inductive PyObj where
  | str (s : String)
  | nan
  deriving DecidableEq

/-- A value returned by `return_mileage`: a float, the integer `0`, or
Python's implicit `None` when control falls off the end. -/
inductive PyRet where
  | float (q : ℚ)
  | int (n : ℤ)
  | pyNone
  deriving DecidableEq

/-- The workshop's helper, embedded from the source:

```python
def return_mileage(length):
    if isinstance(length, str):
        pattern = re.compile(r"\d+\.\d+")
        mile = re.findall(pattern, length)
        if len(mile) == 1:
            return float(mile[0])
    else:
        return 0
```
-/
def return_mileage : PyObj → PyRet
  | PyObj.str s =>
    let mile := findallMileage s.data
    if mile.length = 1 then PyRet.float (parseFloat mile.headI) else PyRet.pyNone
  | PyObj.nan => PyRet.int 0

/-! ## Claims C1, C2, C8: behaviour of `return_mileage` -/

/-- C1 (counterexample): on the string "no miles", where the pattern
`\d+\.\d+` fails to match, `return_mileage` returns Python `None`,
which is neither the integer `0` nor the float `0` — contradicting the
claim that every unmatched string input yields the fallback `0`. -/
theorem c1_counterexample :
    return_mileage (PyObj.str "no miles") = PyRet.pyNone ∧
      PyRet.pyNone ≠ PyRet.int 0 ∧ PyRet.pyNone ≠ PyRet.float 0 := by
  decide

/-- C1 (amended): a non-string input yields the fallback value `0`,
while a string input on which the pattern `\d+\.\d+` fails to match
yields Python `None` (no value). -/
theorem c1_amended :
    return_mileage PyObj.nan = PyRet.int 0 ∧
      ∀ s : String, findallMileage s.data = [] →
        return_mileage (PyObj.str s) = PyRet.pyNone := by
  refine ⟨rfl, fun s h => ?_⟩
  simp [return_mileage, h]

/-- C1 (amended, witness): instantiated at the unmatched string
"no miles". -/
theorem c1_amended_witness :
    return_mileage (PyObj.str "no miles") = PyRet.pyNone :=
  c1_amended.2 "no miles" (by decide)

/-- C2: whenever the pattern `\d+\.\d+` has exactly one match in the
input string, `return_mileage` returns that matched substring parsed
as a floating-point number. -/
theorem c2_single_match (s : String) (m : List Char)
    (h : findallMileage s.data = [m]) :
    return_mileage (PyObj.str s) = PyRet.float (parseFloat m) := by
  simp [return_mileage, h]

/-- C2 (witness): on "0.8 miles" the single match is "0.8" and the
function returns the float 0.8 = 4/5. -/
theorem c2_single_match_witness :
    return_mileage (PyObj.str "0.8 miles") = PyRet.float (4 / 5) := by
  have h := c2_single_match "0.8 miles" ['0', '.', '8'] (by decide)
  rw [h]
  congr 1
  simp [parseFloat, digitsVal, List.takeWhile_cons, List.dropWhile_cons]
  norm_num

/-- C8: on a string input where the pattern matches zero times or more
than once, `return_mileage` falls through and returns Python `None`;
no string input ever produces `0`, which is returned exactly on the
non-string branch. -/
theorem c8_fallthrough :
    (∀ s : String, (findallMileage s.data).length ≠ 1 →
        return_mileage (PyObj.str s) = PyRet.pyNone) ∧
      (∀ s : String, return_mileage (PyObj.str s) ≠ PyRet.int 0) ∧
      return_mileage PyObj.nan = PyRet.int 0 := by
  refine ⟨fun s h => by simp [return_mileage, h], fun s => ?_, rfl⟩
  by_cases h : (findallMileage s.data).length = 1 <;>
    simp [return_mileage, h]

/-- C8 (witness): "3.5 to 7.2" contains two matches, so the function
returns `None` there. -/
theorem c8_fallthrough_witness :
    return_mileage (PyObj.str "3.5 to 7.2") = PyRet.pyNone :=
  c8_fallthrough.1 "3.5 to 7.2" (by decide)

/-! ## Claims C9, C10: binary encoding of the `Accessible` column -/

/-- The binary-encoding lambda from the source:
`hiking["Accessible"].apply(lambda val: 1 if val == "Y" else 0)`.
In Python, comparing NaN (or any non-"Y" value) with `"Y"` is `False`,
so every input other than the string `"Y"` takes the `else` branch. -/
def accessible_enc (val : PyObj) : ℕ :=
  if val = PyObj.str "Y" then 1 else 0

/-- C9: the lambda maps exactly `"Y"` to 1 and every other value —
including `"N"` and the missing value NaN — to 0, so a missing entry
is encoded identically to `"N"`. -/
theorem c9_lambda_encoding :
    accessible_enc (PyObj.str "Y") = 1 ∧
      (∀ v : PyObj, v ≠ PyObj.str "Y" → accessible_enc v = 0) ∧
      accessible_enc PyObj.nan = accessible_enc (PyObj.str "N") := by
  refine ⟨rfl, fun v hv => ?_, rfl⟩
  simp [accessible_enc, hv]

/-- C9 (witness): the lambda at `"N"` gives 0, discharging the
hypothesis `"N" ≠ "Y"`. -/
theorem c9_lambda_encoding_witness : accessible_enc (PyObj.str "N") = 0 :=
  c9_lambda_encoding.2.1 (PyObj.str "N") (by decide)

/-- The pandas side of the comparison: the lambda applied over a
column of strings. -/
def lambdaCodes (xs : List String) : List ℕ :=
  xs.map (fun v => accessible_enc (PyObj.str v))

/-- Modelled from the spec: scikit-learn's `LabelEncoder().fit_transform`,
absent from the source tree (only its call site appears).  It encodes
each label by its index in the lexicographically sorted list of
distinct values of the column, i.e. by the number of distinct values
strictly below it. -/
def labelEncodeCodes (xs : List String) : List ℕ :=
  xs.map (fun x => (xs.dedup.filter (fun y => y.data < x.data)).length)

/-- C10 (counterexample): on a column containing only `"Y"` — whose
values are all drawn from {"N", "Y"} — the lambda encodes `"Y"` as 1
while the label encoder, whose sole class `"Y"` gets index 0, encodes
it as 0; the two code sequences differ. -/
theorem c10_counterexample :
    lambdaCodes ["Y"] = [1] ∧ labelEncodeCodes ["Y"] = [0] := by
  constructor <;> rfl

/-- C10 (amended): for every column whose values are all drawn from
{"N", "Y"} and in which both values actually occur, the pandas lambda
encoding and the label encoder produce the same sequence of 0/1
codes. -/
theorem c10_amended (xs : List String)
    (hall : ∀ x ∈ xs, x = "N" ∨ x = "Y")
    (hN : "N" ∈ xs) (hY : "Y" ∈ xs) :
    lambdaCodes xs = labelEncodeCodes xs := by
  unfold lambdaCodes labelEncodeCodes
  refine List.map_congr_left (fun x hx => ?_)
  show accessible_enc (PyObj.str x) =
    (xs.dedup.filter (fun y => y.data < x.data)).length
  rcases hall x hx with hxN | hxY
  · subst hxN
    have hnil : xs.dedup.filter (fun y => y.data < "N".data) = [] := by
      refine List.filter_eq_nil_iff.mpr (fun y hy => ?_)
      rcases hall y (List.mem_dedup.mp hy) with h | h <;> subst h <;> decide
    rw [hnil]
    rfl
  · subst hxY
    have hfe : xs.dedup.filter (fun y => y.data < "Y".data) =
        xs.dedup.filter (fun y => y == "N") := by
      refine List.filter_congr (fun y hy => ?_)
      rcases hall y (List.mem_dedup.mp hy) with h | h <;> subst h <;> decide
    have hcount : (xs.dedup.filter (fun y => y == "N")).length = 1 := by
      have h1 := List.count_eq_one_of_mem (List.nodup_dedup xs)
        (List.mem_dedup.mpr hN)
      rwa [List.count, List.countP_eq_length_filter] at h1
    rw [hfe, hcount]
    rfl

/-- C10 (amended, witness): on the concrete column
`["Y", "N", "N", "N", "N"]` (the head of the hiking `Accessible`
column shown in the notebook) both encoders agree. -/
theorem c10_amended_witness :
    lambdaCodes ["Y", "N", "N", "N", "N"] =
      labelEncodeCodes ["Y", "N", "N", "N", "N"] :=
  c10_amended ["Y", "N", "N", "N", "N"] (by decide) (by decide) (by decide)

/-! ## Claim C3: stratified train/test splitting -/

/-- Modelled from the spec: the size of the test part of a stratum of
`n` rows when the requested test fraction is `num / den`, rounded to
an integer (floor). -/
def testSize (n num den : ℕ) : ℕ :=
  n * num / den

/-- Modelled from the spec: the test labels produced by
`train_test_split(..., stratify=labels)` — each class contributes a
stratum whose test part has the proportionally rounded size. -/
def stratTest {α : Type} [DecidableEq α] (ys : List α) (num den : ℕ) : List α :=
  ys.dedup.flatMap (fun v => List.replicate (testSize (ys.count v) num den) v)

/-- Modelled from the spec: the train labels produced by
`train_test_split(..., stratify=labels)` — the remainder of each
stratum after its test part is removed. -/
def stratTrain {α : Type} [DecidableEq α] (ys : List α) (num den : ℕ) : List α :=
  ys.dedup.flatMap
    (fun v => List.replicate (ys.count v - testSize (ys.count v) num den) v)

/-- Counting occurrences in a concatenation of pairwise-distinct
replicated blocks picks out the single matching block. -/
theorem count_flatMap_replicate {α : Type} [DecidableEq α] (l : List α)
    (hl : l.Nodup) (f : α → ℕ) (v : α) :
    (l.flatMap (fun w => List.replicate (f w) w)).count v =
      if v ∈ l then f v else 0 := by
  induction l with
  | nil => simp
  | cons a l ih =>
    rw [List.nodup_cons] at hl
    rw [List.flatMap_cons, List.count_append, ih hl.2]
    by_cases hva : v = a
    · subst hva
      simp [List.count_replicate, hl.1]
    · simp [List.count_replicate, hva, Ne.symm hva, List.mem_cons]

/-- C3: stratified splitting preserves the class distribution — for
every label column and every class, the test set holds the
proportionally rounded share of that class's rows and the train set
the rest, and the multiset union of the train and test label sets is
the full label column. -/
theorem c3_stratified_split {α : Type} [DecidableEq α] (ys : List α)
    (num den : ℕ) (hfrac : num ≤ den) :
    (∀ v : α,
        (stratTest ys num den).count v = ys.count v * num / den ∧
        (stratTrain ys num den).count v + (stratTest ys num den).count v =
          ys.count v) ∧
      ((stratTest ys num den : Multiset α) + (stratTrain ys num den : Multiset α)
        = (ys : Multiset α)) := by
  have hts : ∀ v : α, testSize (ys.count v) num den ≤ ys.count v := by
    intro v
    rcases Nat.eq_zero_or_pos den with hden | hden
    · subst hden
      interval_cases num
      simp [testSize]
    · calc ys.count v * num / den ≤ ys.count v * den / den :=
            Nat.div_le_div_right (Nat.mul_le_mul_left _ hfrac)
        _ = ys.count v := Nat.mul_div_cancel _ hden
  have htest : ∀ v : α, (stratTest ys num den).count v =
      ys.count v * num / den := by
    intro v
    rw [stratTest, count_flatMap_replicate _ (List.nodup_dedup ys)]
    by_cases hv : v ∈ ys
    · simp [List.mem_dedup, hv, testSize]
    · have h0 : ys.count v = 0 := List.count_eq_zero.mpr hv
      simp [List.mem_dedup, hv, h0, testSize]
  have htrain : ∀ v : α, (stratTrain ys num den).count v =
      ys.count v - testSize (ys.count v) num den := by
    intro v
    rw [stratTrain, count_flatMap_replicate _ (List.nodup_dedup ys)]
    by_cases hv : v ∈ ys
    · simp [List.mem_dedup, hv]
    · have h0 : ys.count v = 0 := List.count_eq_zero.mpr hv
      simp [List.mem_dedup, hv, h0]
  refine ⟨fun v => ⟨htest v, ?_⟩, ?_⟩
  · rw [htest v, htrain v]
    have := hts v
    unfold testSize at *
    omega
  · refine Multiset.ext.mpr (fun v => ?_)
    rw [Multiset.count_add]
    simp only [Multiset.coe_count]
    rw [htest v, htrain v]
    have := hts v
    unfold testSize at *
    omega

/-- C3 (witness): on the notebook's 80/20 example — four `"y"` labels
and one `"n"` — a stratified split with test fraction 1/2 puts two of
the four `"y"` rows in the test set. -/
theorem c3_stratified_split_witness :
    (1 : ℕ) ≤ 2 ∧
      (stratTest ["y", "y", "y", "y", "n"] 1 2).count "y" =
        (["y", "y", "y", "y", "n"].count "y") * 1 / 2 :=
  ⟨by decide,
    ((c3_stratified_split ["y", "y", "y", "y", "n"] 1 2 (by decide)).1 "y").1⟩

/-! ## Claim C5: one-hot encoding with `pd.get_dummies` -/

/-- The string held by a cell, or `Option.none` for a missing value. -/
def toStr : PyObj → Option String
  | PyObj.str s => some s
  | PyObj.nan => Option.none

/-- The distinct non-missing values of a series, in order of first
appearance (the order of columns does not matter for the claim). -/
def dummyVals (xs : List PyObj) : List String :=
  (xs.filterMap toStr).dedup

/-- Modelled from the spec: pandas' `pd.get_dummies`, absent from the
source tree (only its call sites appear).  It produces one indicator
column per distinct non-missing value of the series; the column named
`v` holds 1 in the rows whose value is `v` and 0 elsewhere. -/
def get_dummies (xs : List PyObj) : List (String × List ℕ) :=
  (dummyVals xs).map
    (fun v => (v, xs.map (fun x => if x = PyObj.str v then 1 else 0)))

/-- C5: `get_dummies` produces one column per distinct non-missing
value, and in every row holding a non-missing value `v` the column
named `v` holds 1 while every other column holds 0. -/
theorem c5_get_dummies (xs : List PyObj) :
    ((get_dummies xs).map Prod.fst = dummyVals xs ∧ (dummyVals xs).Nodup) ∧
      ∀ (i : ℕ) (v : String), xs.get? i = some (PyObj.str v) →
        v ∈ dummyVals xs ∧
          ∀ c ∈ get_dummies xs,
            c.2.get? i = some (if c.1 = v then 1 else 0) := by
  refine ⟨⟨?_, List.nodup_dedup _⟩, fun i v hi => ⟨?_, fun c hc => ?_⟩⟩
  · rw [get_dummies, List.map_map]
    exact List.map_id _
  · have hmem : PyObj.str v ∈ xs := List.get?_mem hi
    exact List.mem_dedup.mpr
      (List.mem_filterMap.mpr ⟨PyObj.str v, hmem, rfl⟩)
  · rcases List.mem_map.mp hc with ⟨w, _, rfl⟩
    simp only [List.get?_map, hi, Option.map_some]
    by_cases hwv : w = v
    · subst hwv
      simp
    · simp [hwv, Ne.symm hwv]

/-- C5 (witness): on the series `[blue, NaN, red]` the value of row 0
is a distinct non-missing value, and the dummy columns are named
exactly `blue` and `red`. -/
theorem c5_get_dummies_witness :
    "blue" ∈ dummyVals [PyObj.str "blue", PyObj.nan, PyObj.str "red"] ∧
      (get_dummies [PyObj.str "blue", PyObj.nan, PyObj.str "red"]).map
          Prod.fst = ["blue", "red"] :=
  ⟨((c5_get_dummies _).2 0 "blue" (by decide)).1,
    ((c5_get_dummies _).1.1).trans (by decide)⟩

/-! ## Claim C7: assigning a derived column is a pure extension -/

/-- Modelled from the spec: a pandas `DataFrame` as an association
list from column names to equal-length value lists, in column order. -/
def getCol {α : Type} (df : List (String × List α)) (n : String) : List α :=
  match df.find? (fun p => p.1 == n) with
  | some p => p.2
  | Option.none => []

/-- Modelled from the spec: pandas column assignment `df[n] = vs` —
replace the column in place when the name exists, otherwise append a
new column at the end. -/
def assignCol {α : Type} (df : List (String × List α)) (n : String)
    (vs : List α) : List (String × List α) :=
  if df.any (fun p => p.1 == n) then
    df.map (fun p => if p.1 == n then (n, vs) else p)
  else df ++ [(n, vs)]

/-- The number of rows of a DataFrame: the common length of its
columns (0 when there are no columns). -/
def nrows {α : Type} (df : List (String × List α)) : ℕ :=
  match df with
  | [] => 0
  | p :: _ => p.2.length

/-- C7: assigning the result of `apply` on an existing column to a new
column name appends the new column at the end, leaves every
pre-existing column (hence the row order) unchanged, and preserves the
row count. -/
theorem c7_assign_derived_column {α : Type} (df : List (String × List α))
    (m c : String) (f : α → α) (hnew : ∀ p ∈ df, p.1 ≠ m)
    (hne : df ≠ []) :
    assignCol df m ((getCol df c).map f) = df ++ [(m, (getCol df c).map f)] ∧
      (∀ n, n ≠ m →
        getCol (assignCol df m ((getCol df c).map f)) n = getCol df n) ∧
      nrows (assignCol df m ((getCol df c).map f)) = nrows df := by
  have hany : df.any (fun p => p.1 == m) = false := by
    rw [List.any_eq_false]
    intro p hp
    simpa using hnew p hp
  have happ : assignCol df m ((getCol df c).map f) =
      df ++ [(m, (getCol df c).map f)] := by
    rw [assignCol, hany]
    simp
  refine ⟨happ, fun n hn => ?_, ?_⟩
  · rw [happ]
    have hb : (m == n) = false := beq_eq_false_iff_ne.mpr (Ne.symm hn)
    have hnone :
        [(m, (getCol df c).map f)].find? (fun p => p.1 == n) = Option.none := by
      simp [List.find?, hb]
    cases hfd : df.find? (fun p => p.1 == n) with
    | none => simp [getCol, List.find?_append, hfd, hnone, Ne.symm hn]
    | some p => simp [getCol, List.find?_append, hfd]
  · rw [happ]
    cases df with
    | nil => exact absurd rfl hne
    | cons p l => rfl

/-- C7 (witness): appending the derived "Length Mileage" column to a
one-column frame keeps the original column and its two rows intact. -/
theorem c7_assign_derived_column_witness :
    assignCol [("Length", [10, 20])] "Length Mileage"
        ((getCol [("Length", [10, 20])] "Length").map (fun x : ℕ => x + 1)) =
      [("Length", [10, 20]), ("Length Mileage", [11, 21])] ∧
      nrows (assignCol [("Length", [10, 20])] "Length Mileage"
        ((getCol [("Length", [10, 20])] "Length").map (fun x : ℕ => x + 1))) = 2 := by
  have h := c7_assign_derived_column [("Length", [10, 20])] "Length Mileage"
    "Length" (fun x : ℕ => x + 1) (by decide) (by decide)
  exact ⟨h.1.trans (by decide), h.2.2.trans (by decide)⟩

/-! ## Claim C4: zero-mean/unit-variance scaling -/

/-- Modelled from the spec: the mean of a numeric column (real-valued,
abstracting the floating-point arithmetic of the library). -/
noncomputable def colMean (xs : List ℝ) : ℝ :=
  xs.sum / xs.length

/-- Modelled from the spec: the population variance of a numeric
column, as used by `StandardScaler` (denominator `n`). -/
noncomputable def colVar (xs : List ℝ) : ℝ :=
  ((xs.map (fun x => (x - colMean xs) ^ 2)).sum) / xs.length

/-- Modelled from the spec: `StandardScaler().fit_transform` on one
column — remove the mean and scale to unit variance. -/
noncomputable def standardScale (xs : List ℝ) : List ℝ :=
  xs.map (fun x => (x - colMean xs) / Real.sqrt (colVar xs))

/-- Summing `f x / c` over a list divides the sum of `f x` by `c`. -/
theorem sum_map_div (l : List ℝ) (f : ℝ → ℝ) (c : ℝ) :
    (l.map (fun x => f x / c)).sum = (l.map f).sum / c := by
  induction l with
  | nil => simp
  | cons a l ih => simp [ih, add_div]

/-- Summing `x - μ` over a list subtracts `n·μ` from the sum. -/
theorem sum_map_sub_const (l : List ℝ) (μ : ℝ) :
    (l.map (fun x => x - μ)).sum = l.sum - l.length * μ := by
  induction l with
  | nil => simp
  | cons a l ih => simp [ih]; ring

/-- The variance of a column is nonnegative. -/
theorem colVar_nonneg (xs : List ℝ) : 0 ≤ colVar xs := by
  apply div_nonneg _ (Nat.cast_nonneg _)
  exact List.sum_nonneg (fun x hx => by
    rcases List.mem_map.mp hx with ⟨a, _, rfl⟩
    positivity)

/-- C4: for a column with nonzero variance (in particular any
non-constant column), the standard-scaled column has mean 0 and
variance 1. -/
theorem c4_standard_scale (xs : List ℝ) (hvar : colVar xs ≠ 0) :
    colMean (standardScale xs) = 0 ∧ colVar (standardScale xs) = 1 := by
  have hne : xs ≠ [] := by
    intro h
    subst h
    simp [colVar, colMean] at hvar
  have hn : (xs.length : ℝ) ≠ 0 :=
    Nat.cast_ne_zero.mpr (fun h0 => hne (List.length_eq_zero.mp h0))
  have hvpos : 0 < colVar xs := lt_of_le_of_ne (colVar_nonneg xs) (Ne.symm hvar)
  set μ := colMean xs with hμ
  set σ := Real.sqrt (colVar xs) with hσ
  have hσpos : 0 < σ := Real.sqrt_pos.mpr hvpos
  have hσne : σ ≠ 0 := ne_of_gt hσpos
  have hσsq : σ ^ 2 = colVar xs := Real.sq_sqrt (le_of_lt hvpos)
  have hsum : xs.sum = xs.length * μ := by
    rw [hμ, colMean]
    field_simp
  have hmean : colMean (standardScale xs) = 0 := by
    rw [colMean, standardScale, List.length_map]
    rw [sum_map_div xs (fun x => x - μ) σ, sum_map_sub_const, hsum]
    simp
  refine ⟨hmean, ?_⟩
  rw [colVar, hmean, standardScale, List.length_map, List.map_map]
  have hrw : ((fun x => (x - 0) ^ 2) ∘ fun x => (x - μ) / σ) =
      fun x => ((x - μ) ^ 2) / σ ^ 2 := by
    funext x
    rw [Function.comp]
    rw [sub_zero, div_pow]
  rw [hrw, sum_map_div xs (fun x => (x - μ) ^ 2) (σ ^ 2), hσsq]
  have hvsum : (xs.map (fun x => (x - μ) ^ 2)).sum = colVar xs * xs.length := by
    rw [colVar, hμ]
    field_simp
  rw [hvsum]
  field_simp

/-- C4 (witness): the column `[0, 2]` has variance 1 ≠ 0, and its
scaled version has mean 0 and variance 1. -/
theorem c4_standard_scale_witness :
    colMean (standardScale [0, 2]) = 0 ∧ colVar (standardScale [0, 2]) = 1 := by
  refine c4_standard_scale [0, 2] ?_
  have hm : colMean [0, 2] = 1 := by
    rw [colMean]
    norm_num
  rw [colVar, hm]
  norm_num

/-! ## Claim C6: correlation-based pruning commutes with restriction -/

/-- Modelled from the spec: the Pearson correlation coefficient of two
columns, as computed by `DataFrame.corr()`.  Its internal form is
irrelevant to the claim; only that it is a function of the two columns
matters. -/
noncomputable def pearson (xs ys : List ℝ) : ℝ :=
  (((xs.zip ys).map
      (fun p => (p.1 - colMean xs) * (p.2 - colMean ys))).sum) /
    (Real.sqrt ((xs.map (fun x => (x - colMean xs) ^ 2)).sum) *
      Real.sqrt ((ys.map (fun y => (y - colMean ys) ^ 2)).sum))

/-- Modelled from the spec: `df.drop(c, axis=1)` — remove the column
named `c`, keeping the others in order. -/
def dropCol (df : List (String × List ℝ)) (c : String) :
    List (String × List ℝ) :=
  df.filter (fun p => p.1 ≠ c)

/-- Modelled from the spec: `df.corr()` — the labelled matrix of
pairwise Pearson correlations of the DataFrame's columns. -/
noncomputable def corrOf (df : List (String × List ℝ)) :
    List (String × List (String × ℝ)) :=
  df.map (fun ci => (ci.1, df.map (fun cj => (cj.1, pearson ci.2 cj.2))))

/-- The submatrix of a labelled correlation matrix restricted to the
columns other than `c`: drop the row and the entries labelled `c`. -/
def restrictCorr (m : List (String × List (String × ℝ))) (c : String) :
    List (String × List (String × ℝ)) :=
  (m.filter (fun r => r.1 ≠ c)).map
    (fun r => (r.1, r.2.filter (fun q => q.1 ≠ c)))

/-- Filtering on the name commutes with a name-preserving map. -/
theorem filter_name_map {β γ : Type} (l : List β) (f : β → γ)
    (p : γ → Bool) (q : β → Bool) (h : ∀ b, p (f b) = q b) :
    (l.map f).filter p = (l.filter q).map f := by
  induction l with
  | nil => rfl
  | cons a l ih =>
    rw [List.map_cons, List.filter_cons, List.filter_cons, h a]
    cases q a with
    | true => rw [if_pos rfl, if_pos rfl, List.map_cons, ih]
    | false => simp only [Bool.false_eq_true, if_neg, ih]; simp

/-- C6: dropping a column and then computing the correlation matrix
yields exactly the original correlation matrix restricted to the
remaining columns — pairwise correlations of retained columns are
unchanged by the drop. -/
theorem c6_corr_drop_restrict (df : List (String × List ℝ)) (c : String) :
    corrOf (dropCol df c) = restrictCorr (corrOf df) c := by
  simp only [corrOf, restrictCorr, dropCol]
  rw [filter_name_map df
    (fun ci => (ci.1, df.map (fun cj => (cj.1, pearson ci.2 cj.2))))
    (fun r => r.1 ≠ c) (fun p => p.1 ≠ c) (fun b => rfl)]
  rw [List.map_map]
  refine List.map_congr_left (fun ci _ => ?_)
  simp only [Function.comp]
  rw [filter_name_map df (fun cj => (cj.1, pearson ci.2 cj.2))
    (fun q => q.1 ≠ c) (fun p => p.1 ≠ c) (fun b => rfl)]

end Workshop
